import Mathlib

/-!
Verification of the audiorecorder core (Go sources) against its
natural-language specification.

Shallow embedding conventions:
* `float32`/`float64` sample values are embedded as `ℚ` with exact
  arithmetic (the claims under study are structural / exact-arithmetic
  properties; floating-point rounding of individual samples is idealized
  as exact).
* `time.Time` values are embedded as `ℤ` (milliseconds since an epoch);
  the Go zero value `time.Time{}` corresponds to `0`.
  `t1.Before(t2)` is `t1 < t2` and `t2.Sub(t1).Milliseconds()` is `t2 - t1`.
* Machine integers are embedded as `ℕ`/`ℤ` with explicit wrap-arounds
  (`% 2^16`, `% 2^32`) where the Go code converts to `int16`/`uint32`.
* File contents are byte lists (`List ℕ`, each entry a byte value).
-/

namespace AudioRec

/-! ## Accumulation buffer (audio/buffer.go)

Go source:

    type Buffer struct { samples []float32; sampleRate int; channels int; timestamp time.Time; mutex }

The mutex serializes `Add`/`Get`; the embedding models the serialized
behaviour as pure state transitions. -/

structure Buffer where
  samples : List ℚ
  sampleRate : ℕ
  channels : ℕ
  timestamp : ℤ
deriving Repr, DecidableEq

/-- Translation of `NewBuffer`: empty sample list; `timestamp` is left at the
Go zero value (embedded as `0`). -/
def NewBuffer (sampleRate channels : ℕ) : Buffer :=
  { samples := [], sampleRate := sampleRate, channels := channels, timestamp := 0 }

/-- Translation of `Buffer.Add`: if the buffer is empty the batch-start
timestamp is set to the incoming timestamp, then the samples are appended. -/
def Buffer.Add (b : Buffer) (samples : List ℚ) (timestamp : ℤ) : Buffer :=
  { b with
    timestamp := if b.samples.length = 0 then timestamp else b.timestamp
    samples := b.samples ++ samples }

/-- Translation of `Buffer.Get`: returns (copy of samples, timestamp,
sampleRate, channels) and the post-state.  The Go code sets
`b.samples = make([]float32, 0)` but does not touch `b.timestamp`. -/
def Buffer.Get (b : Buffer) : (List ℚ × ℤ × ℕ × ℕ) × Buffer :=
  ((b.samples, b.timestamp, b.sampleRate, b.channels), { b with samples := [] })

/-- Translation of `Buffer.IsEmpty`. -/
def Buffer.IsEmpty (b : Buffer) : Bool :=
  b.samples.length = 0

/-- Translation of `Buffer.Size`. -/
def Buffer.Size (b : Buffer) : ℕ :=
  b.samples.length

/-! ## Time-synchronized mixer (audio/mixer.go) -/

/-- Semantics of Go's `copy(dst, src)`: overwrite the prefix of `dst` with
`src`, copying `min (len dst) (len src)` elements; the result keeps the
length of `dst`. -/
def goCopy (dst src : List ℚ) : List ℚ :=
  src.take dst.length ++ dst.drop src.length

/-- Translation of the mixing loop shared by `TimeSyncMixAudioSamples`
(lines 370-381) and `MixAudioSamples` (lines 546-554):

    for i := 0; i < len(laterSamples); i++ {
      pos := offsetSamples + i
      if pos < len(mixed) {
        if pos < len(refSamples) { mixed[pos] = (mixed[pos] + laterSamples[i]) * 0.5 }
        else { mixed[pos] = laterSamples[i] }
      }
    }

`refLen` is `len(refSamples)`, `off` is `offsetSamples`, `i` the loop index,
`m` the mutable slice.  (`MixAudioSamples` omits the `pos < len(mixed)`
bounds test, but with `off = 0` it is always true, so the loop body agrees.) -/
def mixWrite (refLen pos : ℕ) (x : ℚ) (m : List ℚ) : List ℚ :=
  if pos < m.length then
    m.set pos (if pos < refLen then (m.getD pos 0 + x) * (1/2) else x)
  else m

def mixIntoLoop (refLen off : ℕ) (later : List ℚ) (i : ℕ) (m : List ℚ) : List ℚ :=
  match later with
  | [] => m
  | x :: rest => mixIntoLoop refLen off rest (i + 1) (mixWrite refLen (off + i) x m)

/-- Translation of `MixAudioSamples` (simple position-aligned 50/50 mix).
The first Go loop (`for i < len(samples1): mixed[i] = samples1[i]`) is the
prefix copy `goCopy`, the second loop is `mixIntoLoop` with offset `0`. -/
def MixAudioSamples (samples1 samples2 : List ℚ) : List ℚ :=
  if samples1.length = 0 then samples2
  else if samples2.length = 0 then samples1
  else
    let resultLength :=
      if samples2.length > samples1.length then samples2.length else samples1.length
    let mixed := goCopy (List.replicate resultLength 0) samples1
    mixIntoLoop samples1.length 0 samples2 0 mixed

/-- Translation of `TimeSyncMixAudioSamples`.

The Go offset computation is
`int(float64(timeDiffMs) * float64(sampleRate*channels) / 1000.0)` with
`timeDiffMs = laterTimestamp.Sub(refTimestamp).Milliseconds() ≥ 0` by choice
of the reference; for a non-negative argument Go's `int(...)` truncation is
the floor, embedded exactly as natural-number division
(float64 arithmetic idealized as exact).  The Go guard `offsetSamples <= 0`
is `offsetSamples = 0` on ℕ. -/
def TimeSyncMixAudioSamples (samples1 : List ℚ) (timestamp1 : ℤ)
    (samples2 : List ℚ) (timestamp2 : ℤ) (sampleRate channels : ℕ) :
    List ℚ × ℤ :=
  if samples1.length = 0 then (samples2, timestamp2)
  else if samples2.length = 0 then (samples1, timestamp1)
  else
    let refSamples := if timestamp1 < timestamp2 then samples1 else samples2
    let refTimestamp := if timestamp1 < timestamp2 then timestamp1 else timestamp2
    let laterSamples := if timestamp1 < timestamp2 then samples2 else samples1
    let laterTimestamp := if timestamp1 < timestamp2 then timestamp2 else timestamp1
    let timeDiffMs := laterTimestamp - refTimestamp
    let offsetSamples : ℕ := timeDiffMs.toNat * (sampleRate * channels) / 1000
    if offsetSamples = 0 then (MixAudioSamples samples1 samples2, refTimestamp)
    else
      let totalLength :=
        if offsetSamples + laterSamples.length > refSamples.length then
          offsetSamples + laterSamples.length
        else refSamples.length
      let mixed := goCopy (List.replicate totalLength 0) refSamples
      (mixIntoLoop refSamples.length offsetSamples laterSamples 0 mixed, refTimestamp)

/-! ## Incremental WAV container writer (audio/wav.go) -/

/-- Little-endian encoding of Go `uint32(n)` as four byte values
(wrap mod 2^32 is built into the byte extraction). -/
def uint32le (n : ℕ) : List ℕ :=
  [n % 256, n / 256 % 256, n / 65536 % 256, n / 16777216 % 256]

/-- Little-endian encoding of Go `uint16(n)` as two byte values. -/
def uint16le (n : ℕ) : List ℕ :=
  [n % 256, n / 256 % 256]

/-- Go `uint32(z)` for a signed argument: two's-complement wrap into
[0, 2^32), then little-endian bytes. -/
def uint32leI (z : ℤ) : List ℕ :=
  uint32le (z % 4294967296).toNat

/-- Byte values of an ASCII string literal written with `file.WriteString`. -/
def strBytes (s : String) : List ℕ :=
  s.toList.map Char.toNat

/-- Translation of `WriteWAVHeader`: the 44 header bytes, in write order. -/
def WriteWAVHeader (sampleRate channels bitsPerSample dataSize : ℕ) : List ℕ :=
  let bytesPerSample := bitsPerSample / 8
  let blockAlign := channels * bytesPerSample
  let bytesPerSec := sampleRate * blockAlign
  strBytes "RIFF" ++ uint32le (36 + dataSize) ++ strBytes "WAVE" ++
  strBytes "fmt " ++ uint32le 16 ++ uint16le 1 ++ uint16le channels ++
  uint32le sampleRate ++ uint32le bytesPerSec ++ uint16le blockAlign ++
  uint16le 16 ++ strBytes "data" ++ uint32le dataSize

/-- Translation of `InitializeWAVFile`: a fresh file holding the canonical
16-bit PCM header with data size zero. -/
def InitializeWAVFile (sampleRate channels : ℕ) : List ℕ :=
  WriteWAVHeader sampleRate channels 16 0

/-- Overwrite bytes of `file` in place starting at offset `off`
(Go `file.Seek(off, io.SeekStart)` followed by `binary.Write`). -/
def writeAt (file : List ℕ) (off : ℕ) (bs : List ℕ) : List ℕ :=
  file.take off ++ bs ++ file.drop (off + bs.length)

/-- Translation of `UpdateWAVHeader`: patch the RIFF size field at offset 4
with `uint32(36 + dataSize)` and the data-chunk size field at offset 40 with
`uint32(dataSize)`. -/
def UpdateWAVHeader (file : List ℕ) (dataSize : ℤ) : List ℕ :=
  writeAt (writeAt file 4 (uint32leI (36 + dataSize))) 40 (uint32leI dataSize)

/-- Truncation toward zero of a rational, the rounding used by Go's
float-to-integer conversion `int16(x)`. -/
def ratTrunc (q : ℚ) : ℤ :=
  if 0 ≤ q then ⌊q⌋ else -⌊-q⌋

/-- Two's-complement wrap of an integer into the `int16` range
[-32768, 32768). -/
def wrap16 (z : ℤ) : ℤ :=
  (z + 32768) % 65536 - 32768

/-- Value of Go's `int16(sample * 32767)` (sample embedded as exact ℚ):
truncate toward zero, then wrap into 16 bits.  No clamping is performed. -/
def goInt16 (sample : ℚ) : ℤ :=
  wrap16 (ratTrunc (sample * 32767))

/-- Little-endian bytes of an `int16` value written by
`binary.Write(file, binary.LittleEndian, int16Sample)`. -/
def int16le (z : ℤ) : List ℕ :=
  uint16le (z % 65536).toNat

/-- Translation of `WriteFloatSamples`: for each sample in order, convert to
`int16` and write two little-endian bytes; returns (bytes written,
bytesWritten counter). -/
def WriteFloatSamples : List ℚ → List ℕ × ℕ
  | [] => ([], 0)
  | s :: rest =>
    let bs := int16le (goInt16 s)
    let r := WriteFloatSamples rest
    (bs ++ r.1, r.2 + 2)

/-- File-facing state of the `Recorder`: the output file's bytes and the
`currentFileSize` running total (Go `int64`). -/
structure WavState where
  file : List ℕ
  currentFileSize : ℤ
deriving Repr, DecidableEq

/-- State after `InitializeWAVFile` plus the `os.Stat` size read in
`StartRecording` (the fresh file holds exactly the 44 header bytes). -/
def initWavState (sampleRate channels : ℕ) : WavState :=
  let f := InitializeWAVFile sampleRate channels
  { file := f, currentFileSize := (f.length : ℤ) }

/-- Translation of `Recorder.appendToWAVFile`: seek to end-of-file, write the
converted samples, bump `currentFileSize`, recompute
`dataSize = currentFileSize - 44` and patch the header. -/
def appendToWAVFile (st : WavState) (samples : List ℚ) : WavState :=
  if samples.length = 0 then st
  else
    let w := WriteFloatSamples samples
    let file1 := st.file ++ w.1
    let newSize := st.currentFileSize + (w.2 : ℤ)
    let dataSize := newSize - 44
    { file := UpdateWAVHeader file1 dataSize, currentFileSize := newSize }

/-- Decode the 32-bit little-endian field stored at byte offset `off`. -/
def read32le (file : List ℕ) (off : ℕ) : ℕ :=
  file.getD off 0 + 256 * file.getD (off + 1) 0 +
  65536 * file.getD (off + 2) 0 + 16777216 * file.getD (off + 3) 0

/-! ## Recording orchestrator writer task (audio/recorder.go) -/

/-- Signals consumed by `audioWriterRoutine`'s `select`: `writeSignal` and
`stopSignal` (both capacity-one channels). -/
inductive Signal where
  | write
  | stop
deriving Repr, DecidableEq

/-- Orchestrator state touched by the writer task. -/
structure RecorderState where
  sampleRate : ℕ
  channels : ℕ
  micBuffer : Buffer
  speakerBuffer : Buffer
  mixedBuffer : Buffer
  wav : WavState
  writingActive : Bool
deriving Repr, DecidableEq

/-- Translation of `Recorder.processPendingAudio`: drain both source
buffers, mix with `TimeSyncMixAudioSamples` at the configured rate/channels,
and add the result to the mixed buffer when non-empty. -/
def processPendingAudio (r : RecorderState) : RecorderState :=
  let mic := Buffer.Get r.micBuffer
  let spk := Buffer.Get r.speakerBuffer
  let mixed := TimeSyncMixAudioSamples mic.1.1 mic.1.2.1 spk.1.1 spk.1.2.1
      r.sampleRate r.channels
  let mixedBuf :=
    if mixed.1.length > 0 then Buffer.Add r.mixedBuffer mixed.1 mixed.2
    else r.mixedBuffer
  { r with micBuffer := mic.2, speakerBuffer := spk.2, mixedBuffer := mixedBuf }

/-- Body of the `writeSignal` case of `audioWriterRoutine`: process pending
audio, drain the mixed buffer, and append to the WAV file if non-empty. -/
def writerCycle (r : RecorderState) : RecorderState :=
  let r1 := processPendingAudio r
  let got := Buffer.Get r1.mixedBuffer
  let r2 := { r1 with mixedBuffer := got.2 }
  if got.1.1.length > 0 then { r2 with wav := appendToWAVFile r2.wav got.1.1 }
  else r2

/-- Translation of `Recorder.audioWriterRoutine`, driven by the sequence of
signals it receives in order: on `writeSignal` it performs one
drain-mix-append cycle and loops; on `stopSignal` it sets
`writingActive = false` and returns immediately, consuming nothing further. -/
def audioWriterRoutine (r : RecorderState) : List Signal → RecorderState
  | [] => r
  | sig :: rest =>
    if r.writingActive then
      match sig with
      | Signal.write => audioWriterRoutine (writerCycle r) rest
      | Signal.stop => { r with writingActive := false }
    else r

/-- Signals posted by `StopRecording`: one final `writeSignal`, then (after
the 100 ms grace sleep) the `stopSignal`. -/
def stopRecordingSignals : List Signal :=
  [Signal.write, Signal.stop]

/-! ## Transcript segment pipeline (transcription/transcriber.go) -/

/-- Transcript segment: text is irrelevant to the ordering claims and kept
as a `String`; `StartTime`/`EndTime` are batch-relative offsets in seconds
(Go `float64`, embedded as ℚ); `Timestamp` is the absolute capture time in
milliseconds. -/
structure TranscriptSegment where
  Text : String
  StartTime : ℚ
  EndTime : ℚ
  IsMic : Bool
  Timestamp : ℤ
deriving Repr, DecidableEq

/-- Comparator passed to `sort.Slice` in `Transcriber.writeSegments`:

    if segments[i].Timestamp.Sub(segments[j].Timestamp) < time.Second &&
       segments[j].Timestamp.Sub(segments[i].Timestamp) < time.Second {
      return segments[i].StartTime < segments[j].StartTime
    }
    return segments[i].Timestamp.Before(segments[j].Timestamp)

with `time.Second` being 1000 in our millisecond embedding. -/
def segLess (x y : TranscriptSegment) : Bool :=
  if x.Timestamp - y.Timestamp < 1000 ∧ y.Timestamp - x.Timestamp < 1000 then
    decide (x.StartTime < y.StartTime)
  else
    decide (x.Timestamp < y.Timestamp)

/-- Insert into a sorted list according to `segLess`. -/
def insertSeg (x : TranscriptSegment) : List TranscriptSegment → List TranscriptSegment
  | [] => [x]
  | y :: ys => if segLess x y then x :: y :: ys else y :: insertSeg x ys

/-- Order in which `Transcriber.writeSegments` emits one drained batch.
Go's `sort.Slice` runs an unspecified-order comparison sort (insertion sort
for slices this short); we embed it as an insertion sort over the same
comparator.  For any input on which the comparator is a strict weak order
every comparison sort produces the same sequence of comparator-sorted
elements; the counterexample below additionally quantifies over all
permutations, making it independent of the particular algorithm. -/
def sortSegments (segs : List TranscriptSegment) : List TranscriptSegment :=
  match segs with
  | [] => []
  | x :: xs => insertSeg x (sortSegments xs)

/-! ## Buffer trace model for the drain claims -/

/-- One client-visible operation on an accumulation buffer. -/
inductive BufOp where
  | add (samples : List ℚ) (timestamp : ℤ)
  | drain
deriving Repr, DecidableEq

/-- Run a sequence of buffer operations: `add` calls `Buffer.Add`, `drain`
calls `Buffer.Get` and continues with the post-state. -/
def runOps (b : Buffer) : List BufOp → Buffer
  | [] => b
  | BufOp.add s t :: rest => runOps (Buffer.Add b s t) rest
  | BufOp.drain :: rest => runOps (Buffer.Get b).2 rest

/-- Concatenation, in arrival order, of all samples added since the most
recent drain in the trace (everything, if the trace has no drain). -/
def sinceLastDrain (ops : List BufOp) : List ℚ :=
  ops.foldl
    (fun acc op =>
      match op with
      | BufOp.add s _ => acc ++ s
      | BufOp.drain => []) []

lemma runOps_samples (ops : List BufOp) : ∀ b : Buffer,
    (runOps b ops).samples =
      ops.foldl
        (fun acc op =>
          match op with
          | BufOp.add s _ => acc ++ s
          | BufOp.drain => []) b.samples := by
  induction ops with
  | nil => intro b; rfl
  | cons op rest ih =>
    intro b
    cases op with
    | add s t => simpa [runOps, Buffer.Add] using ih (Buffer.Add b s t)
    | drain => simpa [runOps, Buffer.Get] using ih (Buffer.Get b).2

/-- C3: for every sequence of `Add` calls interleaved with drains, a drain
(`Buffer.Get`) returns exactly the concatenation, in arrival order, of all
samples added since the previous drain, and immediately afterward the
buffer's size is 0 (`IsEmpty` is true). -/
theorem buffer_drain_correct (sampleRate channels : ℕ) (ops : List BufOp) :
    (Buffer.Get (runOps (NewBuffer sampleRate channels) ops)).1.1 =
        sinceLastDrain ops ∧
      (Buffer.Get (runOps (NewBuffer sampleRate channels) ops)).2.samples = [] ∧
      Buffer.IsEmpty (Buffer.Get (runOps (NewBuffer sampleRate channels) ops)).2 = true ∧
      Buffer.Size (Buffer.Get (runOps (NewBuffer sampleRate channels) ops)).2 = 0 := by
  refine ⟨?_, rfl, rfl, rfl⟩
  simpa [Buffer.Get, sinceLastDrain, NewBuffer] using
    runOps_samples ops (NewBuffer sampleRate channels)

/-- C5 counterexample: the claim says every drain clears (invalidates) the
batch-start timestamp, but after draining a buffer whose batch started at
time 5 the stored timestamp is still 5, not the cleared zero value. -/
theorem buffer_timestamp_not_cleared :
    (Buffer.Get (Buffer.Add (NewBuffer 16000 1) [1] 5)).2.timestamp = 5 ∧
      (5 : ℤ) ≠ 0 := by
  exact ⟨rfl, by decide⟩

/-- C5 amended: `Add` sets the batch-start timestamp exactly when the buffer
was empty at call time (otherwise it is left unchanged), while `Get` empties
the sample list but leaves the timestamp field unchanged (it is merely stale
until the next `Add` on the emptied buffer overwrites it). -/
theorem buffer_timestamp_lifecycle (b : Buffer) (s : List ℚ) (t : ℤ) :
    ((Buffer.Add b s t).timestamp =
        if b.samples.length = 0 then t else b.timestamp) ∧
      (Buffer.Get b).2.timestamp = b.timestamp ∧
      (Buffer.Get b).2.samples = [] := by
  exact ⟨rfl, rfl, rfl⟩

/-- C8 counterexample: for the empty batch B carrying timestamp 5, mixing B
with an empty batch of timestamp 7 returns timestamp 7, not B's timestamp —
so the result is not `B` unchanged. -/
theorem mixer_identity_counterexample :
    (TimeSyncMixAudioSamples ([] : List ℚ) 5 [] 7 16000 1).2 = 7 ∧
      (7 : ℤ) ≠ 5 := by
  exact ⟨rfl, by decide⟩

/-- C8 amended: mixing an empty batch with B returns B unchanged (samples
and timestamp); mixing B with an empty batch returns B unchanged whenever B
is non-empty.  (When both inputs are empty the code returns the second
argument's samples and timestamp, so the claim's second direction fails for
empty B.) -/
theorem mixer_identity (s : List ℚ) (t t' : ℤ) (sampleRate channels : ℕ) :
    TimeSyncMixAudioSamples [] t' s t sampleRate channels = (s, t) ∧
      (s.length ≠ 0 →
        TimeSyncMixAudioSamples s t [] t' sampleRate channels = (s, t)) := by
  constructor
  · rfl
  · intro h
    simp [TimeSyncMixAudioSamples, h]

/-- Witness for `mixer_identity` at a concrete non-empty batch. -/
theorem mixer_identity_witness :
    TimeSyncMixAudioSamples [] 9 [1] 3 16000 1 = ([1], 3) ∧
      (TimeSyncMixAudioSamples [1] 3 ([] : List ℚ) 9 16000 1 = ([1], 3)) := by
  exact ⟨(mixer_identity [1] 3 9 16000 1).1,
    (mixer_identity [1] 3 9 16000 1).2 (by decide)⟩

/-- C9: for non-empty inputs the timestamp returned with the mixed batch is
the earlier (minimum) of the two input timestamps, in both the
positive-offset path and the fallback path. -/
theorem mixer_reference_timestamp (s1 s2 : List ℚ) (t1 t2 : ℤ)
    (sampleRate channels : ℕ) (h1 : s1.length ≠ 0) (h2 : s2.length ≠ 0) :
    (TimeSyncMixAudioSamples s1 t1 s2 t2 sampleRate channels).2 = min t1 t2 := by
  unfold TimeSyncMixAudioSamples
  rw [if_neg h1, if_neg h2]
  by_cases hlt : t1 < t2
  · simp [hlt, apply_ite Prod.snd, min_eq_left hlt.le]
  · simp [hlt, apply_ite Prod.snd, min_eq_right (not_lt.mp hlt)]

/-- Witness for `mixer_reference_timestamp`. -/
theorem mixer_reference_timestamp_witness :
    (TimeSyncMixAudioSamples [1] 9 [2] 4 16000 1).2 = min 9 4 := by
  exact mixer_reference_timestamp [1] [2] 9 4 16000 1 (by decide) (by decide)

/-! ## Index-wise characterization of the mixing loop -/

lemma getD_set_self (l : List ℚ) (i : ℕ) (a : ℚ) (h : i < l.length) :
    (l.set i a).getD i 0 = a := by
  simp [List.getD_eq_getElem?_getD, List.getElem?_set, h]

lemma getD_set_other (l : List ℚ) (i j : ℕ) (a : ℚ) (h : i ≠ j) :
    (l.set i a).getD j 0 = l.getD j 0 := by
  simp [List.getD_eq_getElem?_getD, List.getElem?_set, h]

lemma getD_replicate_zero (k j : ℕ) : (List.replicate k (0 : ℚ)).getD j 0 = 0 := by
  simp only [List.getD_eq_getElem?_getD, List.getElem?_replicate]
  split <;> rfl

lemma mixWrite_length (refLen pos : ℕ) (x : ℚ) (m : List ℚ) :
    (mixWrite refLen pos x m).length = m.length := by
  unfold mixWrite
  split <;> simp

lemma mixWrite_getD_ne (refLen pos : ℕ) (x : ℚ) (m : List ℚ) (q : ℕ)
    (h : q ≠ pos) : (mixWrite refLen pos x m).getD q 0 = m.getD q 0 := by
  unfold mixWrite
  split
  · exact getD_set_other _ _ _ _ (Ne.symm h)
  · rfl

lemma mixWrite_getD_self (refLen pos : ℕ) (x : ℚ) (m : List ℚ)
    (h : pos < m.length) : (mixWrite refLen pos x m).getD pos 0 =
      if pos < refLen then (m.getD pos 0 + x) * (1/2) else x := by
  unfold mixWrite
  rw [if_pos h]
  exact getD_set_self _ _ _ h

lemma mixWrite_oob (refLen pos : ℕ) (x : ℚ) (m : List ℚ)
    (h : ¬ pos < m.length) : mixWrite refLen pos x m = m := by
  unfold mixWrite
  exact if_neg h

lemma mixIntoLoop_length (later : List ℚ) : ∀ (refLen off i : ℕ) (m : List ℚ),
    (mixIntoLoop refLen off later i m).length = m.length := by
  induction later with
  | nil => intro refLen off i m; rfl
  | cons x rest ih =>
    intro refLen off i m
    show (mixIntoLoop refLen off rest (i + 1) (mixWrite refLen (off + i) x m)).length = _
    rw [ih, mixWrite_length]

/-- Each loop iteration writes position `off + i + j` for the `j`-th element
of `later`; the positions are pairwise distinct and increasing, so the value
read back by the averaging assignment is the pre-loop value. -/
lemma mixIntoLoop_getD (later : List ℚ) : ∀ (refLen off i : ℕ) (m : List ℚ) (p : ℕ),
    (mixIntoLoop refLen off later i m).getD p 0 =
      if off + i ≤ p ∧ p < off + i + later.length ∧ p < m.length then
        (if p < refLen then (m.getD p 0 + later.getD (p - (off + i)) 0) * (1/2)
         else later.getD (p - (off + i)) 0)
      else m.getD p 0 := by
  induction later with
  | nil =>
    intro refLen off i m p
    simp only [List.length_nil, Nat.add_zero]
    rw [if_neg (by omega)]
    rfl
  | cons x rest ih =>
    intro refLen off i m p
    show (mixIntoLoop refLen off rest (i + 1) (mixWrite refLen (off + i) x m)).getD p 0 = _
    rw [ih]
    simp only [mixWrite_length, List.length_cons]
    by_cases hp : p = off + i
    · subst hp
      rw [if_neg (by omega)]
      by_cases hm : off + i < m.length
      · rw [mixWrite_getD_self _ _ _ _ hm,
          if_pos (show off + i ≤ off + i ∧ off + i < off + i + (rest.length + 1) ∧
            off + i < m.length from ⟨Nat.le_refl _, by omega, hm⟩),
          Nat.sub_self]
        simp only [List.getD_cons_zero]
      · rw [mixWrite_oob _ _ _ _ hm,
          if_neg (show ¬(off + i ≤ off + i ∧ off + i < off + i + (rest.length + 1) ∧
            off + i < m.length) from fun h => hm h.2.2)]
    · by_cases hcond : off + (i + 1) ≤ p ∧ p < off + (i + 1) + rest.length ∧
          p < m.length
      · rw [if_pos hcond,
          if_pos (show off + i ≤ p ∧ p < off + i + (rest.length + 1) ∧ p < m.length from
            ⟨by omega, by omega, by omega⟩),
          mixWrite_getD_ne _ _ _ _ _ hp]
        have hidx : p - (off + i) = (p - (off + (i + 1))) + 1 := by omega
        rw [hidx]
        simp only [List.getD_cons_succ]
      · rw [if_neg hcond,
          if_neg (show ¬(off + i ≤ p ∧ p < off + i + (rest.length + 1) ∧ p < m.length) from
            fun h => hcond ⟨by omega, by omega, by omega⟩),
          mixWrite_getD_ne _ _ _ _ _ hp]

lemma goCopy_replicate (ref : List ℚ) (total : ℕ) (h : ref.length ≤ total) :
    goCopy (List.replicate total (0 : ℚ)) ref =
      ref ++ List.replicate (total - ref.length) 0 := by
  unfold goCopy
  rw [List.length_replicate, List.take_of_length_le h]
  congr 1
  simp [List.drop_replicate]

lemma base_getD (ref : List ℚ) (k p : ℕ) :
    (ref ++ List.replicate k (0 : ℚ)).getD p 0 =
      if p < ref.length then ref.getD p 0 else 0 := by
  by_cases hp : p < ref.length
  · rw [if_pos hp, List.getD_append _ _ _ _ hp]
  · rw [if_neg hp, List.getD_append_right _ _ _ _ (Nat.le_of_not_lt hp),
      getD_replicate_zero]

lemma ifMax (a b : ℕ) : (if b > a then b else a) = max a b := by
  split <;> omega

/-- Route taken by `TimeSyncMixAudioSamples` when the first batch is the
earlier one and the computed sample offset is positive. -/
lemma timeSync_pos (s1 s2 : List ℚ) (t1 t2 : ℤ) (sampleRate channels : ℕ)
    (h1 : s1.length ≠ 0) (h2 : s2.length ≠ 0) (hlt : t1 < t2)
    (hoff : (t2 - t1).toNat * (sampleRate * channels) / 1000 ≠ 0) :
    TimeSyncMixAudioSamples s1 t1 s2 t2 sampleRate channels =
      (mixIntoLoop s1.length ((t2 - t1).toNat * (sampleRate * channels) / 1000) s2 0
        (goCopy (List.replicate
          (max s1.length ((t2 - t1).toNat * (sampleRate * channels) / 1000 + s2.length))
          0) s1),
       t1) := by
  unfold TimeSyncMixAudioSamples
  rw [if_neg h1, if_neg h2]
  simp only [if_pos hlt]
  rw [if_neg hoff, ifMax]

/-- C1: mixer offset correctness.  For non-empty batches `A` (earlier, at
`tA`) and `B` (later, at `tB = tA + D` ms) with positive computed offset
`off = ⌊D * sampleRate * channels / 1000⌋` (the natural-number division below
is exactly that floor), the mixed output has length
`max (len A) (off + len B)`; positions below `off` carry `A` (with the
default value 0 beyond `A`'s end, exactly like the zero-initialized Go
slice); and each later sample `B[i]` lands at `off + i`, averaged 50/50 with
`A[off+i]` when that position lies within `A`, copied verbatim otherwise. -/
theorem mixer_offset (A B : List ℚ) (tA tB : ℤ) (sampleRate channels : ℕ)
    (off : ℕ) (hA : A.length ≠ 0) (hB : B.length ≠ 0) (hlt : tA < tB)
    (hoffdef : off = (tB - tA).toNat * (sampleRate * channels) / 1000)
    (hoff : 0 < off) :
    ((TimeSyncMixAudioSamples A tA B tB sampleRate channels).1.length =
        max A.length (off + B.length)) ∧
      (∀ i < off,
        (TimeSyncMixAudioSamples A tA B tB sampleRate channels).1.getD i 0 =
          A.getD i 0) ∧
      (∀ i < B.length,
        (TimeSyncMixAudioSamples A tA B tB sampleRate channels).1.getD (off + i) 0 =
          if off + i < A.length then (A.getD (off + i) 0 + B.getD i 0) / 2
          else B.getD i 0) := by
  rw [timeSync_pos A B tA tB sampleRate channels hA hB hlt (by omega), ← hoffdef]
  dsimp only
  rw [goCopy_replicate A _ (Nat.le_max_left _ _)]
  have hblen : (A ++ List.replicate (max A.length (off + B.length) - A.length) (0 : ℚ)).length
      = max A.length (off + B.length) := by
    simp only [List.length_append, List.length_replicate]
    omega
  refine ⟨?_, ?_, ?_⟩
  · rw [mixIntoLoop_length, hblen]
  · intro i hi
    rw [mixIntoLoop_getD, if_neg (by omega), base_getD]
    by_cases hiA : i < A.length
    · rw [if_pos hiA]
    · rw [if_neg hiA, List.getD_eq_default _ _ (Nat.le_of_not_lt hiA)]
  · intro i hi
    rw [mixIntoLoop_getD, if_pos ⟨by omega, by omega, by omega⟩]
    have hidx : off + i - (off + 0) = i := by omega
    rw [hidx, base_getD]
    by_cases hin : off + i < A.length
    · rw [if_pos hin, if_pos hin, if_pos hin, mul_one_div]
    · rw [if_neg hin, if_neg hin]

/-- Witness for `mixer_offset`: A = [1,2,3] at t=0, B = [4,6] at t=2 ms,
rate 1000 Hz mono, so off = 2; mixed = [1, 2, (3+4)/2, 6]. -/
theorem mixer_offset_witness :
    ((TimeSyncMixAudioSamples [1, 2, 3] 0 [4, 6] 2 1000 1).1.length = 4) ∧
      ((TimeSyncMixAudioSamples [1, 2, 3] 0 [4, 6] 2 1000 1).1.getD 1 0 = 2) ∧
      ((TimeSyncMixAudioSamples [1, 2, 3] 0 [4, 6] 2 1000 1).1.getD 2 0 = (3 + 4) / 2) ∧
      ((TimeSyncMixAudioSamples [1, 2, 3] 0 [4, 6] 2 1000 1).1.getD 3 0 = 6) := by
  have h := mixer_offset [1, 2, 3] [4, 6] 0 2 1000 1 2
    (by decide) (by decide) (by decide) (by decide) (by decide)
  exact ⟨h.1, h.2.1 1 (by decide), h.2.2 0 (by decide), h.2.2 1 (by decide)⟩

/-- C10: when the computed offset exceeds the reference batch's length, the
uncovered gap [len A, off) is zero-filled (silence) and every later-batch
sample is still written verbatim at `off + i`. -/
theorem mixer_gap_zero_fill (A B : List ℚ) (tA tB : ℤ) (sampleRate channels : ℕ)
    (off : ℕ) (hA : A.length ≠ 0) (hB : B.length ≠ 0) (hlt : tA < tB)
    (hoffdef : off = (tB - tA).toNat * (sampleRate * channels) / 1000)
    (hgap : A.length < off) :
    (∀ p, A.length ≤ p → p < off →
      (TimeSyncMixAudioSamples A tA B tB sampleRate channels).1.getD p 0 = 0) ∧
      (∀ i < B.length,
        (TimeSyncMixAudioSamples A tA B tB sampleRate channels).1.getD (off + i) 0 =
          B.getD i 0) := by
  rw [timeSync_pos A B tA tB sampleRate channels hA hB hlt (by omega), ← hoffdef]
  dsimp only
  rw [goCopy_replicate A _ (Nat.le_max_left _ _)]
  have hblen : (A ++ List.replicate (max A.length (off + B.length) - A.length) (0 : ℚ)).length
      = max A.length (off + B.length) := by
    simp only [List.length_append, List.length_replicate]
    omega
  constructor
  · intro p hp1 hp2
    rw [mixIntoLoop_getD, if_neg (by omega), base_getD, if_neg (by omega)]
  · intro i hi
    rw [mixIntoLoop_getD, if_pos ⟨by omega, by omega, by omega⟩, if_neg (by omega)]
    have hidx : off + i - (off + 0) = i := by omega
    rw [hidx]

/-- Witness for `mixer_gap_zero_fill`: A = [1] at t=0, B = [5] at t=3 ms,
rate 1000 Hz mono, so off = 3 > len A = 1; mixed = [1, 0, 0, 5]. -/
theorem mixer_gap_zero_fill_witness :
    ((TimeSyncMixAudioSamples [1] 0 [5] 3 1000 1).1.getD 1 0 = 0) ∧
      ((TimeSyncMixAudioSamples [1] 0 [5] 3 1000 1).1.getD 2 0 = 0) ∧
      ((TimeSyncMixAudioSamples [1] 0 [5] 3 1000 1).1.getD 3 0 = 5) := by
  have h := mixer_gap_zero_fill [1] [5] 0 3 1000 1 3
    (by decide) (by decide) (by decide) (by decide) (by decide)
  exact ⟨h.1 1 (by decide) (by decide), h.1 2 (by decide) (by decide),
    h.2 0 (by decide)⟩

/-! ## WAV header size invariant -/

lemma writeFloatSamples_counts (samples : List ℚ) :
    (WriteFloatSamples samples).1.length = 2 * samples.length ∧
      (WriteFloatSamples samples).2 = 2 * samples.length := by
  induction samples with
  | nil => exact ⟨rfl, rfl⟩
  | cons s rest ih =>
    simp only [WriteFloatSamples, List.length_append, List.length_cons, ih.1, ih.2]
    constructor
    · have : (int16le (goInt16 s)).length = 2 := rfl
      rw [this]
      omega
    · omega

lemma writeAt_length (file bs : List ℕ) (off : ℕ) (h : off + bs.length ≤ file.length) :
    (writeAt file off bs).length = file.length := by
  unfold writeAt
  simp only [List.length_append, List.length_take, List.length_drop]
  omega

lemma writeAt_getD_in (file bs : List ℕ) (off k : ℕ) (hk : k < bs.length)
    (h : off + bs.length ≤ file.length) :
    (writeAt file off bs).getD (off + k) 0 = bs.getD k 0 := by
  unfold writeAt
  rw [List.append_assoc,
    List.getD_append_right _ _ _ _ (by rw [List.length_take]; omega)]
  have hidx : off + k - (file.take off).length = k := by rw [List.length_take]; omega
  rw [hidx, List.getD_append _ _ _ _ hk]

lemma writeAt_getD_lt (file bs : List ℕ) (off p : ℕ) (hp : p < off)
    (h : off ≤ file.length) :
    (writeAt file off bs).getD p 0 = file.getD p 0 := by
  unfold writeAt
  rw [List.append_assoc,
    List.getD_append _ _ _ _ (by rw [List.length_take]; omega)]
  simp only [List.getD_eq_getElem?_getD, List.getElem?_take, if_pos hp]

lemma read32le_writeAt (file : List ℕ) (off n : ℕ) (h : off + 4 ≤ file.length) :
    read32le (writeAt file off (uint32le n)) off = n % 4294967296 := by
  have h4 : (uint32le n).length = 4 := rfl
  unfold read32le
  have e0 := writeAt_getD_in file (uint32le n) off 0 (by omega) (by omega)
  have e1 := writeAt_getD_in file (uint32le n) off 1 (by omega) (by omega)
  have e2 := writeAt_getD_in file (uint32le n) off 2 (by omega) (by omega)
  have e3 := writeAt_getD_in file (uint32le n) off 3 (by omega) (by omega)
  rw [Nat.add_zero] at e0
  rw [e0, e1, e2, e3]
  show n % 256 + 256 * (n / 256 % 256) + 65536 * (n / 65536 % 256) +
      16777216 * (n / 16777216 % 256) = n % 4294967296
  omega

lemma read32le_writeAt_before (file bs : List ℕ) (off p : ℕ) (h : p + 4 ≤ off)
    (hoff : off ≤ file.length) :
    read32le (writeAt file off bs) p = read32le file p := by
  unfold read32le
  rw [writeAt_getD_lt _ _ _ _ (by omega) hoff, writeAt_getD_lt _ _ _ _ (by omega) hoff,
    writeAt_getD_lt _ _ _ _ (by omega) hoff, writeAt_getD_lt _ _ _ _ (by omega) hoff]

lemma initFile_length (sampleRate channels : ℕ) :
    (InitializeWAVFile sampleRate channels).length = 44 := by
  rfl

lemma initFile_read4 (sampleRate channels : ℕ) :
    read32le (InitializeWAVFile sampleRate channels) 4 = 36 := by
  rfl

lemma initFile_read40 (sampleRate channels : ℕ) :
    read32le (InitializeWAVFile sampleRate channels) 40 = 0 := by
  rfl

/-- Header invariant after a number of append-and-patch cycles totalling `S`
written samples. -/
def wavInv (st : WavState) (S : ℕ) : Prop :=
  st.currentFileSize = 44 + 2 * (S : ℤ) ∧ st.file.length = 44 + 2 * S ∧
    read32le st.file 40 = 2 * S % 4294967296 ∧
    read32le st.file 4 = (36 + 2 * S) % 4294967296

lemma wavInv_init (sampleRate channels : ℕ) :
    wavInv (initWavState sampleRate channels) 0 := by
  refine ⟨?_, ?_, ?_, ?_⟩
  · show ((InitializeWAVFile sampleRate channels).length : ℤ) = 44 + 2 * ((0 : ℕ) : ℤ)
    rw [initFile_length]
    norm_num
  · show (InitializeWAVFile sampleRate channels).length = 44 + 2 * 0
    rw [initFile_length]
  · show read32le (InitializeWAVFile sampleRate channels) 40 = 2 * 0 % 4294967296
    rw [initFile_read40]
  · show read32le (InitializeWAVFile sampleRate channels) 4 = (36 + 2 * 0) % 4294967296
    rw [initFile_read4]

lemma appendToWAVFile_eq (st : WavState) (samples : List ℚ)
    (hs : samples.length ≠ 0) :
    appendToWAVFile st samples =
      { file := UpdateWAVHeader (st.file ++ (WriteFloatSamples samples).1)
          (st.currentFileSize + ((WriteFloatSamples samples).2 : ℤ) - 44),
        currentFileSize := st.currentFileSize + ((WriteFloatSamples samples).2 : ℤ) } := by
  unfold appendToWAVFile
  rw [if_neg hs]

lemma wavInv_step (st : WavState) (S : ℕ) (samples : List ℚ) (h : wavInv st S) :
    wavInv (appendToWAVFile st samples) (S + samples.length) := by
  obtain ⟨hsize, hlen, h40, h4⟩ := h
  by_cases hs : samples.length = 0
  · unfold appendToWAVFile
    rw [if_pos hs, hs, Nat.add_zero]
    exact ⟨hsize, hlen, h40, h4⟩
  · rw [appendToWAVFile_eq st samples hs]
    obtain ⟨hwlen, hwcount⟩ := writeFloatSamples_counts samples
    have hf1len : (st.file ++ (WriteFloatSamples samples).1).length =
        44 + 2 * (S + samples.length) := by
      rw [List.length_append, hlen, hwlen]
      omega
    have hds : st.currentFileSize + ((WriteFloatSamples samples).2 : ℤ) - 44 =
        2 * ((S : ℤ) + samples.length) := by
      rw [hsize, hwcount]
      push_cast
      ring
    have hu4 : ∀ z : ℤ, (uint32leI z).length = 4 := fun z => rfl
    unfold UpdateWAVHeader
    rw [hds]
    have hiu : uint32leI (36 + 2 * ((S : ℤ) + samples.length)) =
        uint32le ((36 + 2 * ((S : ℤ) + samples.length)) % 4294967296).toNat := rfl
    have hou : uint32leI (2 * ((S : ℤ) + samples.length)) =
        uint32le ((2 * ((S : ℤ) + samples.length)) % 4294967296).toNat := rfl
    have hinner_len : (writeAt (st.file ++ (WriteFloatSamples samples).1) 4
        (uint32leI (36 + 2 * ((S : ℤ) + samples.length)))).length =
        44 + 2 * (S + samples.length) := by
      rw [writeAt_length _ _ _ (by rw [hu4, hf1len]; omega), hf1len]
    refine ⟨?_, ?_, ?_, ?_⟩
    · rw [hsize, hwcount]
      push_cast
      ring
    · rw [writeAt_length _ _ _ (by rw [hu4, hinner_len]; omega), hinner_len]
    · rw [hou, read32le_writeAt _ _ _ (by rw [hinner_len]; omega)]
      omega
    · rw [read32le_writeAt_before _ _ _ _ (by omega) (by rw [hinner_len]; omega),
        hiu, read32le_writeAt _ _ _ (by rw [hf1len]; omega)]
      omega

/-- C2: container header size invariant.  After any sequence of
append-and-patch cycles writing a cumulative total of `S` 16-bit samples
(with `36 + 2 S` representable in the 32-bit size fields), the data-chunk
size field at byte offset 40 decodes to `2 S` and the RIFF size field at
byte offset 4 decodes to `36 + 2 S`. -/
theorem wav_header_invariant (sampleRate channels : ℕ) (batches : List (List ℚ))
    (h : 36 + 2 * (batches.map List.length).sum < 4294967296) :
    read32le ((batches.foldl appendToWAVFile (initWavState sampleRate channels)).file) 40 =
        2 * (batches.map List.length).sum ∧
      read32le ((batches.foldl appendToWAVFile (initWavState sampleRate channels)).file) 4 =
        36 + 2 * (batches.map List.length).sum := by
  have key : ∀ (bs : List (List ℚ)) (st : WavState) (S : ℕ), wavInv st S →
      wavInv (bs.foldl appendToWAVFile st) (S + (bs.map List.length).sum) := by
    intro bs
    induction bs with
    | nil => intro st S h0; simpa using h0
    | cons b rest ih =>
      intro st S h0
      have := ih (appendToWAVFile st b) (S + b.length) (wavInv_step st S b h0)
      simp only [List.foldl_cons, List.map_cons, List.sum_cons]
      rw [Nat.add_assoc] at this
      exact this
  obtain ⟨-, -, h40, h4⟩ := key batches (initWavState sampleRate channels) 0
    (wavInv_init sampleRate channels)
  rw [Nat.zero_add] at h40 h4
  exact ⟨by rw [h40]; exact Nat.mod_eq_of_lt (by omega),
    by rw [h4]; exact Nat.mod_eq_of_lt (by omega)⟩

/-- Witness for `wav_header_invariant`: two appends totalling 3 samples give
a data-size field of 6 and a RIFF size field of 42. -/
theorem wav_header_invariant_witness :
    read32le (([[1, 0], [1]].foldl appendToWAVFile (initWavState 16000 1)).file) 40 = 6 ∧
      read32le (([[1, 0], [1]].foldl appendToWAVFile (initWavState 16000 1)).file) 4 = 42 :=
  wav_header_invariant 16000 1 [[1, 0], [1]] (by decide)

/-! ## Sample conversion (WriteFloatSamples) -/

/-- C4 counterexample: at sample 1/2 the code's conversion `int16(s * 32767)`
truncates 16383.5 toward zero and yields 16383, whereas the claimed
`round(s * 32767)` is 16384. -/
theorem sample_conversion_counterexample :
    goInt16 (1/2) = 16383 ∧ round ((1/2 : ℚ) * 32767) = 16384 ∧
      goInt16 (1/2) ≠ round ((1/2 : ℚ) * 32767) := by
  have hq : ((1 : ℚ)/2) * 32767 = 32767/2 := by norm_num
  have hfl : (⌊(32767 : ℚ)/2⌋ : ℤ) = 16383 := by
    rw [Int.floor_eq_iff]
    constructor <;> norm_num
  have h1 : goInt16 (1/2) = 16383 := by
    unfold goInt16 ratTrunc
    rw [hq, if_pos (by norm_num), hfl]
    decide
  have h2 : round ((1/2 : ℚ) * 32767) = 16384 := by
    rw [hq, round_eq]
    have : (32767 : ℚ)/2 + 1/2 = 16384 := by norm_num
    rw [this, Int.floor_eq_iff]
    constructor <;> norm_num
  exact ⟨h1, h2, by rw [h1, h2]; decide⟩

/-- C4 amended: the append path converts each sample `s` to the 16-bit
signed integer obtained by truncating `s * 32767` toward zero (not
rounding), with no clamping — out-of-range results wrap two's-complement
modulo 2^16 into [-32768, 32768) — and writes it little-endian, two bytes
per sample. -/
theorem sample_conversion (samples : List ℚ) :
    ((WriteFloatSamples samples).1 =
        samples.flatMap (fun s => int16le (goInt16 s))) ∧
      ((WriteFloatSamples samples).2 = 2 * samples.length) ∧
      (∀ s : ℚ, goInt16 s = (ratTrunc (s * 32767) + 32768) % 65536 - 32768 ∧
        -32768 ≤ goInt16 s ∧ goInt16 s < 32768) := by
  refine ⟨?_, (writeFloatSamples_counts samples).2, ?_⟩
  · induction samples with
    | nil => rfl
    | cons s rest ih =>
      show int16le (goInt16 s) ++ (WriteFloatSamples rest).1 = _
      rw [List.flatMap_cons, ih]
  · intro s
    refine ⟨rfl, ?_, ?_⟩
    · unfold goInt16 wrap16
      have := Int.emod_nonneg (ratTrunc (s * 32767) + 32768) (by norm_num : (65536:ℤ) ≠ 0)
      omega
    · unfold goInt16 wrap16
      have := Int.emod_lt_of_pos (ratTrunc (s * 32767) + 32768)
        (by norm_num : (0:ℤ) < 65536)
      omega

/-! ## Writer-task stop behaviour -/

lemma processPendingAudio_writingActive (r : RecorderState) :
    (processPendingAudio r).writingActive = r.writingActive := by
  unfold processPendingAudio
  rfl

lemma writerCycle_writingActive (r : RecorderState) :
    (writerCycle r).writingActive = r.writingActive := by
  unfold writerCycle
  dsimp only
  split
  · exact processPendingAudio_writingActive r
  · exact processPendingAudio_writingActive r

/-- Concrete orchestrator state used to exercise the stop path: the
microphone buffer holds one pending sample batch. -/
def stopDemoState : RecorderState :=
  { sampleRate := 16000, channels := 1,
    micBuffer := Buffer.Add (NewBuffer 16000 1) [1] 5,
    speakerBuffer := NewBuffer 16000 1,
    mixedBuffer := NewBuffer 16000 1,
    wav := initWavState 16000 1,
    writingActive := true }

/-- C6 counterexample: on receiving the stop signal the writer routine exits
immediately without performing another drain-mix-append cycle — the pending
microphone batch is still in the buffer afterwards (a final cycle would have
drained it). -/
theorem writer_stop_counterexample :
    audioWriterRoutine stopDemoState [Signal.stop] =
        { stopDemoState with writingActive := false } ∧
      Buffer.Size (audioWriterRoutine stopDemoState [Signal.stop]).micBuffer = 1 ∧
      (1 : ℕ) ≠ 0 := by
  exact ⟨rfl, rfl, by decide⟩

/-- C6 amended: the writer task performs no drain-mix-append cycle in
response to the stop signal itself; it sets `writingActive := false` and
exits at once, ignoring any later signals.  The final flush is instead the
cycle performed for the separate write signal that `StopRecording` posts
before the stop signal, so the `StopRecording` sequence [write, stop] causes
exactly one further cycle followed by exit. -/
theorem writer_stop_behavior (r : RecorderState) (rest : List Signal)
    (h : r.writingActive = true) :
    audioWriterRoutine r (Signal.stop :: rest) = { r with writingActive := false } ∧
      audioWriterRoutine r (Signal.write :: Signal.stop :: rest) =
        { writerCycle r with writingActive := false } := by
  constructor
  · simp [audioWriterRoutine, h]
  · simp [audioWriterRoutine, h, writerCycle_writingActive]

/-- Witness for `writer_stop_behavior` at the concrete demo state, with the
write-then-stop signal order posted by `StopRecording`. -/
theorem writer_stop_behavior_witness :
    audioWriterRoutine stopDemoState [Signal.stop] =
        { stopDemoState with writingActive := false } ∧
      audioWriterRoutine stopDemoState [Signal.write, Signal.stop] =
        { writerCycle stopDemoState with writingActive := false } :=
  writer_stop_behavior stopDemoState [] rfl

/-! ## Transcript ordering -/

/-- Pairwise ordering property asserted by the ordering claim for the
written sequence: any earlier-written segment x and later-written segment y
satisfy: timestamps more than one second apart are in ascending timestamp
order, and timestamps less than one second apart are in ascending
batch-relative start-offset order. -/
def claimOrdered (l : List TranscriptSegment) : Prop :=
  l.Pairwise (fun x y =>
    (1000 < |x.Timestamp - y.Timestamp| → x.Timestamp < y.Timestamp) ∧
    (|x.Timestamp - y.Timestamp| < 1000 → x.StartTime ≤ y.StartTime))

lemma claimOrdered_pair (x y : TranscriptSegment) :
    claimOrdered [x, y] ↔
      ((1000 < |x.Timestamp - y.Timestamp| → x.Timestamp < y.Timestamp) ∧
       (|x.Timestamp - y.Timestamp| < 1000 → x.StartTime ≤ y.StartTime)) := by
  unfold claimOrdered
  simp [List.pairwise_cons]

/-- Segment at capture time 0 ms with batch-relative start 2 s. -/
def segA : TranscriptSegment := ⟨"a", 2, 2, true, 0⟩

/-- Segment at capture time 900 ms with batch-relative start 1 s. -/
def segB : TranscriptSegment := ⟨"b", 1, 1, false, 900⟩

/-- Segment at capture time 1800 ms with batch-relative start 0 s. -/
def segC : TranscriptSegment := ⟨"c", 0, 0, true, 1800⟩

/-- C7 counterexample: the batch {segA, segB, segC} makes the comparator
cyclic (A must precede C by timestamp, C must precede B by start offset,
B must precede A by start offset), so the claimed pairwise ordering fails
for the written order — and indeed for every one of the six possible output
orders, independently of the sorting algorithm. -/
theorem transcript_ordering_counterexample :
    sortSegments [segA, segB, segC] = [segA, segC, segB] ∧
      ¬ claimOrdered [segA, segB, segC] ∧ ¬ claimOrdered [segA, segC, segB] ∧
      ¬ claimOrdered [segB, segA, segC] ∧ ¬ claimOrdered [segB, segC, segA] ∧
      ¬ claimOrdered [segC, segA, segB] ∧ ¬ claimOrdered [segC, segB, segA] := by
  have eBC : segLess segB segC = false := by
    unfold segLess segB segC
    rw [if_pos (by constructor <;> decide)]
    simp only [decide_eq_false_iff_not]
    norm_num
  have eAC : segLess segA segC = true := by
    unfold segLess segA segC
    rw [if_neg (by intro h; exact absurd h.2 (by decide))]
    decide
  have hAB : ¬ (segA.StartTime ≤ segB.StartTime) := by
    unfold segA segB
    norm_num
  have hBC : ¬ (segB.StartTime ≤ segC.StartTime) := by
    unfold segB segC
    norm_num
  have hCA : ¬ (segC.Timestamp < segA.Timestamp) := by decide
  have habAB : |segA.Timestamp - segB.Timestamp| < 1000 := by decide
  have habBC : |segB.Timestamp - segC.Timestamp| < 1000 := by decide
  have habCA : 1000 < |segC.Timestamp - segA.Timestamp| := by decide
  refine ⟨?_, ?_, ?_, ?_, ?_, ?_, ?_⟩
  · show insertSeg segA (insertSeg segB (insertSeg segC [])) = _
    show insertSeg segA (if segLess segB segC = true then _ else _) = _
    rw [eBC]
    show (if segLess segA segC = true then _ else _) = _
    rw [eAC]
    rfl
  · intro h
    exact hAB (((List.pairwise_cons.mp h).1 segB (by simp)).2 habAB)
  · intro h
    exact hAB (((List.pairwise_cons.mp h).1 segB (by simp)).2 habAB)
  · intro h
    exact hBC (((List.pairwise_cons.mp h).1 segC (by simp)).2 habBC)
  · intro h
    exact hBC (((List.pairwise_cons.mp h).1 segC (by simp)).2 habBC)
  · intro h
    exact hCA (((List.pairwise_cons.mp h).1 segA (by simp)).1 habCA)
  · intro h
    exact hCA (((List.pairwise_cons.mp h).1 segA (by simp)).1 habCA)

/-- C7 amended: the pairwise ordering guarantee holds for every two-segment
batch, in either insertion order — segments more than one second apart are
written in ascending capture-timestamp order, segments less than one second
apart in ascending start-offset order.  For batches of three or more the
comparator can be cyclic (see the counterexample) and no output order can
satisfy the claim for all pairs. -/
theorem transcript_pair_ordering (a b : TranscriptSegment) :
    claimOrdered (sortSegments [a, b]) := by
  have hs : sortSegments [a, b] = if segLess a b = true then [a, b] else [b, a] := rfl
  by_cases hl : segLess a b = true
  · have hs2 : sortSegments [a, b] = [a, b] := by rw [hs, if_pos hl]
    rw [hs2, claimOrdered_pair]
    unfold segLess at hl
    by_cases hw : a.Timestamp - b.Timestamp < 1000 ∧ b.Timestamp - a.Timestamp < 1000
    · rw [if_pos hw] at hl
      have hstart : a.StartTime < b.StartTime := of_decide_eq_true hl
      have habs : |a.Timestamp - b.Timestamp| < 1000 := abs_sub_lt_iff.mpr hw
      exact ⟨fun hgt => absurd hgt (by omega), fun _ => le_of_lt hstart⟩
    · rw [if_neg hw] at hl
      have hts : a.Timestamp < b.Timestamp := of_decide_eq_true hl
      refine ⟨fun _ => hts, fun habs => ?_⟩
      obtain ⟨h1, h2⟩ := abs_sub_lt_iff.mp habs
      exact absurd ⟨h1, h2⟩ hw
  · have hs2 : sortSegments [a, b] = [b, a] := by rw [hs, if_neg hl]
    rw [hs2, claimOrdered_pair]
    unfold segLess at hl
    by_cases hw : a.Timestamp - b.Timestamp < 1000 ∧ b.Timestamp - a.Timestamp < 1000
    · rw [if_pos hw] at hl
      have hstart : ¬ (a.StartTime < b.StartTime) := by
        intro hc
        exact hl (decide_eq_true hc)
      have habs : |a.Timestamp - b.Timestamp| < 1000 := abs_sub_lt_iff.mpr hw
      have habs' : |b.Timestamp - a.Timestamp| < 1000 := by
        rw [abs_sub_comm]
        exact habs
      exact ⟨fun hgt => absurd hgt (by omega), fun _ => le_of_not_lt hstart⟩
    · rw [if_neg hw] at hl
      have hts : ¬ (a.Timestamp < b.Timestamp) := by
        intro hc
        exact hl (decide_eq_true hc)
      refine ⟨fun hgt => ?_, fun habs => ?_⟩
      · rcases lt_abs.mp hgt with h | h <;> omega
      · obtain ⟨h1, h2⟩ := abs_sub_lt_iff.mp habs
        exact absurd ⟨h2, h1⟩ hw

end AudioRec
